import Mathlib

/-!
Verification of the elm-watch watch-mode build driver (early development
snapshot). Each module of the TypeScript source is shallowly embedded as
executable Lean definitions, and the behavioural properties of interest are
proved as theorems about those definitions.

Conventions used throughout:
- JavaScript arrays become `List`; the source's `NonEmptyArray` values are
  plain lists here (non-emptiness is stated where a property needs it).
- `Date` values become `Nat` millisecond timestamps.
- Mutation is made explicit: a function that mutates an object in place is
  embedded as a function returning the updated value, and points where
  concurrent code may interleave (marking an output dirty during an await)
  are passed in as explicit booleans.
-/

namespace ElmWatch

/-- Compilation modes, from Types.ts (`CompilationMode`). -/
inductive CompilationMode
  | debug
  | standard
  | optimize
  deriving DecidableEq

/-- Deduplication by first occurrence, as JavaScript
`Array.from(new Set(list))` behaves: iteration order of a `Set` is insertion
order, so the result keeps the first occurrence of each element. -/
def dedupAux (seen : List String) : List String → List String
  | [] => []
  | s :: rest =>
    if s ∈ seen then dedupAux seen rest
    else s :: dedupAux (s :: seen) rest

/-- The embedding of `Array.from(new Set(list))` for string lists. -/
def dedupFirst (l : List String) : List String := dedupAux [] l

theorem mem_dedupAux (l : List String) :
    ∀ (seen : List String) (s : String),
      s ∈ dedupAux seen l ↔ s ∈ l ∧ s ∉ seen := by
  induction l with
  | nil => intro seen s; simp [dedupAux]
  | cons a rest ih =>
    intro seen s
    by_cases ha : a ∈ seen
    · rw [dedupAux, if_pos ha, ih]
      constructor
      · rintro ⟨h1, h2⟩
        exact ⟨List.mem_cons_of_mem _ h1, h2⟩
      · rintro ⟨h1, h2⟩
        rcases List.mem_cons.mp h1 with rfl | h1
        · exact absurd ha h2
        · exact ⟨h1, h2⟩
    · rw [dedupAux, if_neg ha, List.mem_cons, ih]
      constructor
      · rintro (rfl | ⟨h1, h2⟩)
        · exact ⟨List.mem_cons_self _ _, ha⟩
        · exact ⟨List.mem_cons_of_mem _ h1,
            fun hm => h2 (List.mem_cons_of_mem _ hm)⟩
      · rintro ⟨h1, h2⟩
        rcases List.mem_cons.mp h1 with rfl | h1
        · exact Or.inl rfl
        · by_cases hsa : s = a
          · exact Or.inl hsa
          · exact Or.inr ⟨h1, fun hm => (List.mem_cons.mp hm).elim hsa h2⟩

theorem nodup_dedupAux (l : List String) :
    ∀ seen : List String, List.Nodup (dedupAux seen l) := by
  induction l with
  | nil => intro seen; simp [dedupAux]
  | cons a rest ih =>
    intro seen
    by_cases ha : a ∈ seen
    · rw [dedupAux, if_pos ha]
      exact ih seen
    · rw [dedupAux, if_neg ha]
      refine List.nodup_cons.mpr ⟨fun hmem => ?_, ih (a :: seen)⟩
      exact ((mem_dedupAux rest (a :: seen) a).mp hmem).2 (List.mem_cons_self a seen)

theorem mem_dedupFirst (l : List String) (s : String) :
    s ∈ dedupFirst l ↔ s ∈ l := by
  unfold dedupFirst
  rw [mem_dedupAux]
  simp

theorem nodup_dedupFirst (l : List String) : List.Nodup (dedupFirst l) :=
  nodup_dedupAux l []

theorem length_dedupFirst (l : List String) :
    (dedupFirst l).length = l.dedup.length := by
  have hperm : List.Perm (dedupFirst l) l.dedup := by
    rw [List.perm_ext_iff_of_nodup (nodup_dedupFirst l) l.nodup_dedup]
    intro a
    rw [mem_dedupFirst, List.mem_dedup]
  exact hperm.length_eq

/-! ## The make-mode argument parser (Make.ts, `parseArgs`)

The validity of an output name is decided by `ElmToolingJson.isValidOutputName`
in a module that `parseArgs` only calls; the embedding is therefore
parameterised by that boolean predicate. -/

namespace MakeMain

inductive RunMode
  | make
  | hot
  deriving DecidableEq

inductive ParseArgsResult
  | BadArgs (badArgs : List String)
  | Success (compilationMode : CompilationMode) (outputs : List String)
  | DebugOptimizeClash
  | DebugOptimizeForHot
  deriving DecidableEq

/-- The mutable accumulator of `parseArgs`'s for-loop. -/
structure ParseAcc where
  debug : Bool
  optimize : Bool
  badArgs : List String
  outputs : List String
  deriving DecidableEq

/-- The for-loop of `parseArgs`: each argument either sets a flag, is pushed
to `outputs` (valid output name) or is pushed to `badArgs`. -/
def parseLoop (isValidOutputName : String → Bool) : ParseAcc → List String → ParseAcc
  | acc, [] => acc
  | acc, arg :: rest =>
    if arg = "--debug" then
      parseLoop isValidOutputName { acc with debug := true } rest
    else if arg = "--optimize" then
      parseLoop isValidOutputName { acc with optimize := true } rest
    else if isValidOutputName arg then
      parseLoop isValidOutputName { acc with outputs := acc.outputs ++ [arg] } rest
    else
      parseLoop isValidOutputName { acc with badArgs := acc.badArgs ++ [arg] } rest

/-- The tail of `parseArgs` after the run-mode specific flag checks: the
`badArgs` check followed by the `Success` construction. -/
def finishParse (acc : ParseAcc) : ParseArgsResult :=
  if acc.badArgs ≠ [] then .BadArgs acc.badArgs
  else
    .Success
      (if acc.debug then .debug else if acc.optimize then .optimize else .standard)
      acc.outputs

/-- Embedding of `parseArgs` from Make.ts. -/
def parseArgs (runMode : RunMode) (isValidOutputName : String → Bool)
    (args : List String) : ParseArgsResult :=
  let acc := parseLoop isValidOutputName ⟨false, false, [], []⟩ args
  match runMode with
  | .hot => if acc.debug || acc.optimize then .DebugOptimizeForHot else finishParse acc
  | .make => if acc.debug && acc.optimize then .DebugOptimizeClash else finishParse acc

/-- An argument that is neither of the two recognised flags. -/
def isNonFlagArg (arg : String) : Bool :=
  !(arg = "--debug" : Bool) && !(arg = "--optimize" : Bool)

/-- The arguments `parseLoop` pushes to `badArgs`. -/
def badArgsOf (isValidOutputName : String → Bool) (args : List String) : List String :=
  args.filter fun a => isNonFlagArg a && !isValidOutputName a

/-- The arguments `parseLoop` pushes to `outputs`. -/
def outputsOf (isValidOutputName : String → Bool) (args : List String) : List String :=
  args.filter fun a => isNonFlagArg a && isValidOutputName a

theorem parseLoop_spec (isValidOutputName : String → Bool) (args : List String) :
    ∀ acc : ParseAcc,
      parseLoop isValidOutputName acc args =
        { debug := acc.debug || (args.contains "--debug")
          optimize := acc.optimize || (args.contains "--optimize")
          badArgs := acc.badArgs ++ badArgsOf isValidOutputName args
          outputs := acc.outputs ++ outputsOf isValidOutputName args } := by
  induction args with
  | nil => intro acc; simp [parseLoop, badArgsOf, outputsOf]
  | cons arg rest ih =>
    intro acc
    by_cases h1 : arg = "--debug"
    · subst h1
      rw [parseLoop, if_pos rfl, ih]
      simp [badArgsOf, outputsOf, isNonFlagArg, List.contains_cons]
    · by_cases h2 : arg = "--optimize"
      · subst h2
        rw [parseLoop, if_neg (by decide), if_pos rfl, ih]
        simp [badArgsOf, outputsOf, isNonFlagArg, List.contains_cons]
      · have hd : decide ("--debug" = arg) = false :=
          decide_eq_false fun h => h1 h.symm
        have ho : decide ("--optimize" = arg) = false :=
          decide_eq_false fun h => h2 h.symm
        have hflag : isNonFlagArg arg = true := by
          simp [isNonFlagArg, h1, h2]
        by_cases h3 : isValidOutputName arg
        · rw [parseLoop, if_neg h1, if_neg h2, if_pos h3, ih]
          simp [badArgsOf, outputsOf, hflag, h3, List.contains_cons, hd, ho]
        · have h3f : isValidOutputName arg = false := by simpa using h3
          rw [parseLoop, if_neg h1, if_neg h2, if_neg h3, ih]
          simp [badArgsOf, outputsOf, hflag, h3f, List.contains_cons, hd, ho]

theorem contains_iff_mem (args : List String) (s : String) :
    args.contains s = true ↔ s ∈ args :=
  List.elem_iff

/-- C5: in make mode `parseArgs` returns `DebugOptimizeClash` exactly when the
arguments contain both `--debug` and `--optimize`; in hot mode it returns
`DebugOptimizeForHot` exactly when they contain either flag; otherwise it
returns `BadArgs` with the non-empty list of non-flag arguments that are not
valid output names exactly when such an argument exists; and otherwise it
returns `Success` whose compilation mode is `debug` when `--debug` was given,
`optimize` when `--optimize` was given and `standard` when neither was. -/
theorem c5_parseArgs_characterization (isValidOutputName : String → Bool)
    (args : List String) :
    (parseArgs .make isValidOutputName args = .DebugOptimizeClash ↔
      ("--debug" ∈ args ∧ "--optimize" ∈ args))
    ∧ (parseArgs .hot isValidOutputName args = .DebugOptimizeForHot ↔
      ("--debug" ∈ args ∨ "--optimize" ∈ args))
    ∧ (¬ ("--debug" ∈ args ∧ "--optimize" ∈ args) →
        (badArgsOf isValidOutputName args ≠ [] →
          parseArgs .make isValidOutputName args =
            .BadArgs (badArgsOf isValidOutputName args))
        ∧ (badArgsOf isValidOutputName args = [] →
          parseArgs .make isValidOutputName args =
            .Success
              (if "--debug" ∈ args then .debug
               else if "--optimize" ∈ args then .optimize
               else .standard)
              (outputsOf isValidOutputName args)))
    ∧ (¬ ("--debug" ∈ args ∨ "--optimize" ∈ args) →
        (badArgsOf isValidOutputName args ≠ [] →
          parseArgs .hot isValidOutputName args =
            .BadArgs (badArgsOf isValidOutputName args))
        ∧ (badArgsOf isValidOutputName args = [] →
          parseArgs .hot isValidOutputName args =
            .Success .standard (outputsOf isValidOutputName args))) := by
  have hmake : parseArgs .make isValidOutputName args =
      (if args.contains "--debug" && args.contains "--optimize" then
        ParseArgsResult.DebugOptimizeClash
       else finishParse ⟨args.contains "--debug", args.contains "--optimize",
         badArgsOf isValidOutputName args, outputsOf isValidOutputName args⟩) := by
    simp only [parseArgs]
    rw [parseLoop_spec]
    simp
  have hhot : parseArgs .hot isValidOutputName args =
      (if args.contains "--debug" || args.contains "--optimize" then
        ParseArgsResult.DebugOptimizeForHot
       else finishParse ⟨args.contains "--debug", args.contains "--optimize",
         badArgsOf isValidOutputName args, outputsOf isValidOutputName args⟩) := by
    simp only [parseArgs]
    rw [parseLoop_spec]
    simp
  have hdm := contains_iff_mem args "--debug"
  have hom := contains_iff_mem args "--optimize"
  refine ⟨?_, ?_, ?_, ?_⟩
  · rw [hmake, ← hdm, ← hom]
    cases hdc : args.contains "--debug" <;> cases hoc : args.contains "--optimize" <;>
      simp [hdc, hoc] <;>
      (try (by_cases hb : badArgsOf isValidOutputName args = [] <;> simp [finishParse, hb]))
  · rw [hhot, ← hdm, ← hom]
    cases hdc : args.contains "--debug" <;> cases hoc : args.contains "--optimize" <;>
      simp [hdc, hoc] <;>
      (try (by_cases hb : badArgsOf isValidOutputName args = [] <;> simp [finishParse, hb]))
  · intro hno
    have hdo : (args.contains "--debug" && args.contains "--optimize") = false := by
      cases hdc : args.contains "--debug" <;> cases hoc : args.contains "--optimize" <;>
        simp_all
    constructor
    · intro hb
      rw [hmake, hdo]
      simp [finishParse, hb]
    · intro hb
      rw [hmake]
      cases hdc : args.contains "--debug" <;> cases hoc : args.contains "--optimize" <;>
        simp_all [finishParse]
  · intro hno
    have hdc : args.contains "--debug" = false := by
      cases h : args.contains "--debug" <;> simp_all
    have hoc : args.contains "--optimize" = false := by
      cases h : args.contains "--optimize" <;> simp_all
    constructor
    · intro hb
      rw [hhot, hdc, hoc]
      simp [finishParse, hb]
    · intro hb
      rw [hhot, hdc, hoc]
      simp [finishParse, hb]

end MakeMain

/-! ## The postprocess worker pool (Postprocess.ts)

A worker is `Idle`, `Busy` or `Terminated`. The pool keeps its workers in a
JavaScript `Set`, whose iteration order is insertion order; workers are only
inserted at creation and deleted at termination, so the list order below is
creation order (oldest first). -/

namespace Pool

inductive WorkerStatus
  | Idle
  | Busy
  | Terminated
  deriving DecidableEq

structure Worker where
  id : Nat
  status : WorkerStatus
  deriving DecidableEq

def Worker.isIdle (w : Worker) : Bool := w.status == WorkerStatus.Idle

/-- Observable effects of `PostprocessWorker#terminate`. -/
inductive TerminateEffect
  | onTerminatedCalled
  | workerThreadTerminated
  | rejectedWith (error : String)
  deriving DecidableEq

/-- The error constant `WORKER_TERMINATED` from Postprocess.ts. -/
def WORKER_TERMINATED : String :=
  "`PostprocessWorker` has a `terminate` method. That was called! This error is supposed to be caught."

/-- Embedding of `PostprocessWorker#terminate`: the status transition together
with the list of effects performed, in order. `Idle`: mark terminated, call the
`onTerminated` callback (which removes the worker from the pool), terminate the
worker thread. `Busy`: the same, then reject the pending postprocess promise
with `WORKER_TERMINATED`. `Terminated`: do nothing. -/
def terminate : WorkerStatus → WorkerStatus × List TerminateEffect
  | .Idle => (.Terminated, [.onTerminatedCalled, .workerThreadTerminated])
  | .Busy =>
    (.Terminated,
      [.onTerminatedCalled, .workerThreadTerminated, .rejectedWith WORKER_TERMINATED])
  | .Terminated => (.Terminated, [])

/-- C10: `terminate` on an `Idle` or `Busy` worker transitions it to
`Terminated` and invokes the `onTerminated` callback; on a `Busy` worker it
additionally rejects the pending promise with `WORKER_TERMINATED`; on an
already-`Terminated` worker it does nothing, so a second `terminate` after any
first one has no effect (idempotence). -/
theorem c10_terminate_transitions :
    terminate .Idle = (.Terminated, [.onTerminatedCalled, .workerThreadTerminated])
    ∧ terminate .Busy =
      (.Terminated,
        [.onTerminatedCalled, .workerThreadTerminated,
          .rejectedWith WORKER_TERMINATED])
    ∧ terminate .Terminated = (.Terminated, [])
    ∧ ∀ s : WorkerStatus, terminate (terminate s).1 = (.Terminated, []) := by
  refine ⟨rfl, rfl, rfl, ?_⟩
  intro s
  cases s <;> rfl

/-- The pool's worker set, in insertion (= creation) order. -/
structure PoolState where
  workers : List Worker
  deriving DecidableEq

structure LimitResult where
  pool : PoolState
  killed : List Worker
  deriving DecidableEq

/-- Embedding of `PostprocessWorkerPool#limit`. `calculateMax` is the cap
function installed with `setCalculateMax`, already evaluated. The source kills
`idle.slice(-toKill)` where `toKill = workers.size - calculateMax()`; a
negative JavaScript `slice` start clamps at 0, which the truncated `Nat`
subtraction below reproduces. Each killed worker ends up removed from the set
by the `onTerminated` callback. -/
def limit (p : PoolState) (calculateMax : Int) : LimitResult :=
  let idle := p.workers.filter Worker.isIdle
  let toKill : Int := (p.workers.length : Int) - calculateMax
  if 0 < toKill then
    let killed := idle.drop (idle.length - toKill.toNat)
    { pool := { workers := p.workers.filter fun w => !(killed.contains w) }
      killed := killed }
  else
    { pool := p, killed := [] }

/-- A pool of two busy workers over a cap of one: the total exceeds the cap by
one, yet `limit` terminates no worker at all (there is no idle worker to
kill), leaving the pool unchanged. This contradicts the claim that the excess
count of workers is always terminated. -/
theorem c4_counterexample :
    ((⟨[⟨0, .Busy⟩, ⟨1, .Busy⟩]⟩ : PoolState).workers.length : Int) > 1
    ∧ limit ⟨[⟨0, .Busy⟩, ⟨1, .Busy⟩]⟩ 1 =
      { pool := ⟨[⟨0, .Busy⟩, ⟨1, .Busy⟩]⟩, killed := [] } := by
  constructor
  · decide
  · rfl

/-- C4 (amended): when the total number of workers exceeds the cap, `limit`
terminates only idle workers; it terminates `min excess #idle` of them — the
full excess when enough workers are idle, otherwise every idle worker — and
those are the newest among the idle ones: the killed list is a suffix of the
idle list in creation order, so the longest-lived idle workers are the ones
preserved. -/
theorem c4_limit_kills_newest_idle (p : PoolState) (calculateMax : Int)
    (h : (p.workers.length : Int) > calculateMax) :
    (∀ w ∈ (limit p calculateMax).killed, w.status = WorkerStatus.Idle)
    ∧ (limit p calculateMax).killed.length =
      min ((p.workers.length : Int) - calculateMax).toNat
        (p.workers.filter Worker.isIdle).length
    ∧ p.workers.filter Worker.isIdle =
      (p.workers.filter Worker.isIdle).take
          ((p.workers.filter Worker.isIdle).length -
            (limit p calculateMax).killed.length)
        ++ (limit p calculateMax).killed := by
  have hpos : 0 < (p.workers.length : Int) - calculateMax := by omega
  have hkilled : (limit p calculateMax).killed =
      (p.workers.filter Worker.isIdle).drop
        ((p.workers.filter Worker.isIdle).length -
          ((p.workers.length : Int) - calculateMax).toNat) := by
    simp only [limit, if_pos hpos]
  refine ⟨?_, ?_, ?_⟩
  · intro w hw
    rw [hkilled] at hw
    have hmem : w ∈ p.workers.filter Worker.isIdle := List.mem_of_mem_drop hw
    have := List.of_mem_filter hmem
    simpa [Worker.isIdle] using this
  · rw [hkilled, List.length_drop]
    omega
  · have hlen2 :
        (p.workers.filter Worker.isIdle).length -
          ((p.workers.filter Worker.isIdle).length -
            ((p.workers.filter Worker.isIdle).length -
              ((p.workers.length : Int) - calculateMax).toNat)) =
        (p.workers.filter Worker.isIdle).length -
          ((p.workers.length : Int) - calculateMax).toNat := by
      omega
    rw [hkilled, List.length_drop, hlen2]
    exact (List.take_append_drop _ _).symm

theorem c4_limit_kills_newest_idle_witness :
    (((⟨[⟨0, .Idle⟩, ⟨1, .Busy⟩, ⟨2, .Idle⟩]⟩ : PoolState).workers.length : Int) > 2)
    ∧ ∀ w ∈ (limit ⟨[⟨0, .Idle⟩, ⟨1, .Busy⟩, ⟨2, .Idle⟩]⟩ 2).killed,
        w.status = WorkerStatus.Idle :=
  ⟨by decide,
    (c4_limit_kills_newest_idle ⟨[⟨0, .Idle⟩, ⟨1, .Busy⟩, ⟨2, .Idle⟩]⟩ 2 (by decide)).1⟩

end Pool

/-! ## The WebSocket server event queue (WebSocketServer.ts)

The server starts with `dispatch = dispatchToQueue`; incoming events are
pushed onto `msgQueue` until `setDispatch` installs a real dispatcher, which
then replays the queue. `unsetDispatch` swaps `dispatchToQueue` back in. The
embedding keeps the queue plus a flag saying whether a real dispatcher is
attached, and returns the messages delivered to the real dispatcher. -/

namespace WSS

structure Server (Msg : Type) where
  msgQueue : List Msg
  dispatchAttached : Bool
  deriving DecidableEq

/-- The freshly constructed server: empty queue, `dispatch = dispatchToQueue`. -/
def emptyServer {Msg : Type} : Server Msg := { msgQueue := [], dispatchAttached := false }

/-- An incoming WebSocket event: goes straight to the dispatcher when one is
attached, otherwise `dispatchToQueue` pushes it onto `msgQueue`. -/
def handleEvent {Msg : Type} (s : Server Msg) (msg : Msg) : Server Msg × List Msg :=
  if s.dispatchAttached then (s, [msg])
  else ({ s with msgQueue := s.msgQueue ++ [msg] }, [])

/-- Embedding of `setDispatch`: installs the dispatcher and replays the whole
queue to it, in order. Note the source never empties `msgQueue`. -/
def setDispatch {Msg : Type} (s : Server Msg) : Server Msg × List Msg :=
  ({ s with dispatchAttached := true }, s.msgQueue)

/-- Embedding of `unsetDispatch`: swaps `dispatchToQueue` back in. -/
def unsetDispatch {Msg : Type} (s : Server Msg) : Server Msg :=
  { s with dispatchAttached := false }

inductive ServerOp (Msg : Type)
  | event (msg : Msg)
  | setDispatchOp
  | unsetDispatchOp

/-- Run a sequence of operations against the server, collecting every message
delivered to a real dispatcher, in delivery order. -/
def runServerOps {Msg : Type} : Server Msg → List (ServerOp Msg) → Server Msg × List Msg
  | s, [] => (s, [])
  | s, op :: rest =>
    let step :=
      match op with
      | .event m => handleEvent s m
      | .setDispatchOp => setDispatch s
      | .unsetDispatchOp => (unsetDispatch s, [])
    let next := runServerOps step.1 rest
    (next.1, step.2 ++ next.2)

theorem runServerOps_enqueue {Msg : Type} (q : List Msg) :
    ∀ (queue : List Msg) (rest : List (ServerOp Msg)),
      runServerOps (⟨queue, false⟩ : Server Msg) (q.map ServerOp.event ++ rest) =
        runServerOps (⟨queue ++ q, false⟩ : Server Msg) rest := by
  induction q with
  | nil => intro queue rest; simp [runServerOps]
  | cons m q ih =>
    intro queue rest
    simp only [List.map_cons, List.cons_append]
    rw [runServerOps]
    simp only [handleEvent, if_neg Bool.false_ne_true]
    rw [ih (queue ++ [m]) rest]
    simp

/-- C9: `setDispatch` delivers the queued messages to the newly installed
dispatch function in arrival order but never clears the queue, so after
`unsetDispatch` followed by a second `setDispatch` — the restart sequence —
every message queued before the first `setDispatch` is delivered a second
time, followed by the messages queued in between; the queue afterwards still
holds them all. -/
theorem c9_setDispatch_replays_whole_queue (Msg : Type) (q1 q2 : List Msg) :
    runServerOps emptyServer
        (q1.map ServerOp.event
          ++ [ServerOp.setDispatchOp, ServerOp.unsetDispatchOp]
          ++ q2.map ServerOp.event
          ++ [ServerOp.setDispatchOp]) =
      ({ msgQueue := q1 ++ q2, dispatchAttached := true }, q1 ++ (q1 ++ q2)) := by
  rw [show q1.map ServerOp.event
        ++ [ServerOp.setDispatchOp, ServerOp.unsetDispatchOp]
        ++ q2.map ServerOp.event
        ++ [ServerOp.setDispatchOp] =
      q1.map ServerOp.event
        ++ ([ServerOp.setDispatchOp, ServerOp.unsetDispatchOp]
          ++ (q2.map ServerOp.event ++ [ServerOp.setDispatchOp])) from by
    simp [List.append_assoc]]
  show runServerOps (⟨[], false⟩ : Server Msg) _ = _
  rw [runServerOps_enqueue q1 [] _]
  simp only [List.nil_append, List.cons_append]
  rw [runServerOps]
  simp only [setDispatch]
  rw [runServerOps]
  simp only [unsetDispatch]
  rw [runServerOps_enqueue q2 q1 _]
  rw [runServerOps]
  simp [runServerOps, setDispatch]

end WSS

/-! ## The compile loop (Compile.ts, hot-watcher version)

`compile` loops while some output is dirty; each pass runs, per dirty target:
enter `ElmMake` (clearing `dirty`), await the compiler, and either discard the
result (dirty again or full restart requested), run the postprocess, or store
the compiler result as the status. Payload fields of the status variants (the
command, the error, the stdout buffers) are irrelevant to the control flow and
omitted; each variant keeps its tag. -/

namespace CompileRun

inductive OutputStatus
  | NotWrittenToDisk
  | ElmMake
  | Postprocess
  | Success
  | ElmNotFoundError
  | CommandNotFoundError
  | OtherSpawnError
  | UnexpectedElmMakeOutput
  | PostprocessNonZeroExit
  | ElmWatchNodeMissingScript
  | ElmWatchNodeImportError
  | ElmWatchNodeDefaultExportNotFunction
  | ElmWatchNodeRunError
  | ElmWatchNodeResultDecodeError
  | StdoutDecodeError
  | ElmMakeJsonParseError
  | ElmMakeError
  deriving DecidableEq

/-- The per-target mutable state used by the loop body: the `dirty` flag, the
current status, and whether a postprocess command is configured
(`outputState.postprocess !== undefined`). -/
structure OutputState where
  dirty : Bool
  status : OutputStatus
  hasPostprocess : Bool
  deriving DecidableEq

/-- What the world does while the loop body awaits: the result of
`SpawnElm.make`, the result of `postprocess`, and whether concurrent code
(the watcher, via `MarkAsDirty`, or a restart) marked the target dirty or
requested a full restart during each await. -/
structure Interleaving where
  elmMakeResult : OutputStatus
  dirtyDuringElmMake : Bool
  fullRestartAtElmMakeDone : Bool
  postprocessResult : OutputStatus
  dirtyDuringPostprocess : Bool
  fullRestartAtPostprocessDone : Bool
  deriving DecidableEq

/-- One pass of the loop body for one target (Compile.ts lines 166-224):
returns the final `OutputState` together with the list of status lines written
for this target, in order. -/
def compileOneOutput (st : OutputState) (ev : Interleaving) :
    OutputState × List OutputStatus :=
  if st.dirty = false then (st, [])
  else
    let st1 : OutputState := { st with status := .ElmMake, dirty := false }
    let st2 : OutputState := { st1 with dirty := st1.dirty || ev.dirtyDuringElmMake }
    if ev.fullRestartAtElmMakeDone || st2.dirty then (st2, [.ElmMake])
    else if ev.elmMakeResult = .Success ∧ st.hasPostprocess = true then
      let st3 : OutputState := { st2 with status := .Postprocess }
      let st4 : OutputState :=
        { st3 with
          status := ev.postprocessResult
          dirty := st3.dirty || ev.dirtyDuringPostprocess }
      if ev.fullRestartAtPostprocessDone || st4.dirty then
        (st4, [.ElmMake, .Postprocess])
      else (st4, [.ElmMake, .Postprocess, ev.postprocessResult])
    else ({ st2 with status := ev.elmMakeResult }, [.ElmMake, ev.elmMakeResult])

/-- The state visible to `someOutputIsDirty`: the per-elm.json maps of output
states, plus the `fullRestartRequested` flag. -/
structure CompileState where
  elmJsons : List (String × List (String × OutputState))
  fullRestartRequested : Bool

/-- Embedding of `someOutputIsDirty` (Compile.ts lines 449-458). -/
def someOutputIsDirty (state : CompileState) : Bool :=
  state.elmJsons.any fun p => p.2.any fun q => q.2.dirty

/-- An output state occurs somewhere in the state's nested maps. -/
def stateContains (state : CompileState) (os : OutputState) : Prop :=
  ∃ p ∈ state.elmJsons, ∃ q ∈ p.2, q.2 = os

theorem someOutputIsDirty_of_contains (state : CompileState) (os : OutputState)
    (hmem : stateContains state os) (hdirty : os.dirty = true) :
    someOutputIsDirty state = true := by
  rcases hmem with ⟨p, hp, q, hq, rfl⟩
  simp only [someOutputIsDirty, List.any_eq_true]
  exact ⟨p, hp, q, hq, hdirty⟩

/-- A dirty target with a postprocess step, whose postprocess finishes after a
concurrent file change marked the target dirty again: the just-computed
postprocess result (here `ElmWatchNodeRunError`) IS stored as the target's
status even though `dirty` is true again at completion — only the final
status-line redraw is skipped. This contradicts the claim that the result of
the postprocess is discarded and the status left unchanged in that case. -/
theorem c3_counterexample :
    compileOneOutput
        ⟨true, .Success, true⟩
        ⟨.Success, false, false, .ElmWatchNodeRunError, true, false⟩ =
      (⟨true, .ElmWatchNodeRunError, true⟩, [.ElmMake, .Postprocess]) := by
  decide

/-- C3 (amended): for a target picked up while dirty, `dirty` is cleared at
the moment the status becomes `ElmMake` (the `ElmMake` status line is the
first thing written, before any result is known), and the flag afterwards
reflects only concurrent re-marking during the awaits, never the completion
itself; if the target is dirty again (or a full restart was requested) when
the compiler finishes, the compiler result is discarded — the status stays
`ElmMake`; if the target is dirty again (or a full restart was requested) when
the postprocess finishes, the status IS updated to the postprocess result but
the final status line is not written; when nothing re-marked the target and no
postprocess runs, the compiler result is stored and `dirty` stays false; and
whenever the resulting state is dirty, `someOutputIsDirty` is true for any
state containing it, so the outer loop runs again. -/
theorem c3_dirty_cleared_at_elm_make_entry (st : OutputState) (ev : Interleaving)
    (h : st.dirty = true) :
    ((compileOneOutput st ev).2.head? = some .ElmMake)
    ∧ ((compileOneOutput st ev).1.dirty =
        (ev.dirtyDuringElmMake ||
          (!ev.fullRestartAtElmMakeDone && !ev.dirtyDuringElmMake &&
            (decide (ev.elmMakeResult = .Success) && st.hasPostprocess) &&
            ev.dirtyDuringPostprocess)))
    ∧ ((ev.fullRestartAtElmMakeDone || ev.dirtyDuringElmMake) = true →
        (compileOneOutput st ev).1.status = .ElmMake
        ∧ (compileOneOutput st ev).2 = [.ElmMake])
    ∧ (ev.fullRestartAtElmMakeDone = false → ev.dirtyDuringElmMake = false →
        ev.elmMakeResult = .Success → st.hasPostprocess = true →
        (ev.fullRestartAtPostprocessDone || ev.dirtyDuringPostprocess) = true →
        (compileOneOutput st ev).1.status = ev.postprocessResult
        ∧ (compileOneOutput st ev).2 = [.ElmMake, .Postprocess])
    ∧ (ev.fullRestartAtElmMakeDone = false → ev.dirtyDuringElmMake = false →
        ¬ (ev.elmMakeResult = .Success ∧ st.hasPostprocess = true) →
        (compileOneOutput st ev).1.status = ev.elmMakeResult
        ∧ (compileOneOutput st ev).1.dirty = false)
    ∧ (∀ state : CompileState,
        stateContains state (compileOneOutput st ev).1 →
        (compileOneOutput st ev).1.dirty = true →
        someOutputIsDirty state = true) := by
  refine ⟨?_, ?_, ?_, ?_, ?_, ?_⟩
  · rcases st with ⟨d, status, hp⟩
    cases h
    rcases ev with ⟨emr, dem, frem, ppr, dpp, frpp⟩
    by_cases h2 : emr = OutputStatus.Success
    · subst h2
      cases dem <;> cases frem <;> cases dpp <;> cases frpp <;> cases hp <;>
        simp [compileOneOutput]
    · cases dem <;> cases frem <;> cases dpp <;> cases frpp <;> cases hp <;>
        simp [compileOneOutput, h2]
  · rcases st with ⟨d, status, hp⟩
    cases h
    rcases ev with ⟨emr, dem, frem, ppr, dpp, frpp⟩
    by_cases h2 : emr = OutputStatus.Success
    · subst h2
      cases dem <;> cases frem <;> cases dpp <;> cases frpp <;> cases hp <;>
        simp [compileOneOutput]
    · cases dem <;> cases frem <;> cases dpp <;> cases frpp <;> cases hp <;>
        simp [compileOneOutput, h2]
  · intro h1
    rcases st with ⟨d, status, hp⟩
    cases h
    rcases ev with ⟨emr, dem, frem, ppr, dpp, frpp⟩
    cases dem <;> cases frem <;> simp_all [compileOneOutput]
  · intro h1 h2 h3 h4 h5
    rcases st with ⟨d, status, hp⟩
    cases h
    rcases ev with ⟨emr, dem, frem, ppr, dpp, frpp⟩
    subst h4
    cases h1
    cases h2
    cases h3
    cases dpp <;> cases frpp <;> simp_all [compileOneOutput]
  · intro h1 h2 h3
    rcases st with ⟨d, status, hp⟩
    cases h
    rcases ev with ⟨emr, dem, frem, ppr, dpp, frpp⟩
    cases h1
    cases h2
    by_cases hs : emr = OutputStatus.Success
    · subst hs
      cases hp <;> simp_all [compileOneOutput]
    · cases hp <;> simp_all [compileOneOutput, hs]
  · intro state hmem hdirty
    exact someOutputIsDirty_of_contains state _ hmem hdirty

theorem c3_dirty_cleared_at_elm_make_entry_witness :
    (⟨true, .Success, true⟩ : OutputState).dirty = true
    ∧ (compileOneOutput
        ⟨true, .Success, true⟩
        ⟨.Success, false, false, .ElmWatchNodeRunError, true, false⟩).2.head? =
      some OutputStatus.ElmMake :=
  ⟨rfl,
    (c3_dirty_cleared_at_elm_make_entry
      ⟨true, .Success, true⟩
      ⟨.Success, false, false, .ElmWatchNodeRunError, true, false⟩ rfl).1⟩

/-- The outcome of the error-reporting tail of `compile` (Compile.ts lines
229-252): the exit code, the deduplicated error strings printed, and the count
reported in the final message. -/
structure CompileEndResult where
  exitCode : Nat
  printedErrors : List String
  reportedErrorCount : Nat
  deriving DecidableEq

/-- Embedding of the tail of `compile`: early-return 0 on a full restart,
return 0 when no errors were extracted, otherwise render each error template
at the current terminal width, deduplicate identical renderings with a `Set`,
print them, and report their count with exit code 1. An error template is a
function from the terminal width to the rendered text. -/
def compileEnd (fullRestartRequested : Bool) (errors : List (Nat → String))
    (stderrColumns : Nat) : CompileEndResult :=
  if fullRestartRequested then ⟨0, [], 0⟩
  else if errors.isEmpty then ⟨0, [], 0⟩
  else
    let errorStrings := dedupFirst (errors.map fun template => template stderrColumns)
    ⟨1, errorStrings, errorStrings.length⟩

/-- C7: in a make-mode run (no full restart can be requested), the printed
error list contains each distinct rendering exactly once, the reported count
equals the number of distinct rendered texts rather than the number of error
values, and the exit code is 1 exactly when at least one error was
extracted. -/
theorem c7_error_dedup_and_exit_code (errors : List (Nat → String))
    (stderrColumns : Nat) :
    List.Nodup (compileEnd false errors stderrColumns).printedErrors
    ∧ (∀ s, s ∈ (compileEnd false errors stderrColumns).printedErrors ↔
        s ∈ errors.map fun template => template stderrColumns)
    ∧ (∀ s, s ∈ (errors.map fun template => template stderrColumns) →
        (compileEnd false errors stderrColumns).printedErrors.count s = 1)
    ∧ (compileEnd false errors stderrColumns).reportedErrorCount =
      ((errors.map fun template => template stderrColumns).dedup).length
    ∧ ((compileEnd false errors stderrColumns).exitCode = 1 ↔ errors ≠ []) := by
  by_cases he : errors = []
  · subst he
    simp [compileEnd]
  · have hne : errors.isEmpty = false := by
      simpa [List.isEmpty_iff] using he
    have hrw : compileEnd false errors stderrColumns =
        ⟨1, dedupFirst (errors.map fun template => template stderrColumns),
          (dedupFirst (errors.map fun template => template stderrColumns)).length⟩ := by
      simp [compileEnd, hne]
    refine ⟨?_, ?_, ?_, ?_, ?_⟩
    · rw [hrw]
      exact nodup_dedupFirst _
    · intro s
      rw [hrw]
      exact mem_dedupFirst _ s
    · intro s hs
      rw [hrw]
      exact List.count_eq_one_of_mem (nodup_dedupFirst _) ((mem_dedupFirst _ s).mpr hs)
    · rw [hrw]
      exact length_dedupFirst _
    · rw [hrw]
      simp [he]

end CompileRun

/-! ## The hot orchestrator (Hot.ts)

The model/update state machine: watcher events are classified, coalesced into
a `NextAction` during the debounce window, and drained by the
`SleepBeforeNextActionDone` tick. Only the messages driven by the filesystem
watcher are embedded here; the remaining messages depend on the compile
engine's scheduler, which this development does not need. -/

namespace Hot

/-- Modelled from the spec: Types.ts is not in the source tree. An output path
is either a real absolute path carrying the user-written original form, or the
null sink (compile-only). -/
inductive OutputPath
  | outputPath (theOutputPath : String) (originalString : String)
  | nullOutputPath
  deriving DecidableEq

/-- Modelled from the spec: the original user-written form of an output path;
the null sink renders as the null device path. -/
def outputPathToOriginalString : OutputPath → String
  | .outputPath _ original => original
  | .nullOutputPath => "/dev/null"

/-- Modelled from the spec: Types.ts `InputPath`, an entry-point file resolved
to an absolute path. -/
structure InputPath where
  theInputPath : String
  deriving DecidableEq

/-- Modelled from the spec: Types.ts `UncheckedInputPath`. -/
structure UncheckedInputPath where
  theUncheckedInputPath : String
  deriving DecidableEq

/-- Modelled from the spec: Types.ts `equalsInputPath`. -/
def equalsInputPath (elmFile : String) (inputPath : InputPath) : Bool :=
  inputPath.theInputPath == elmFile

/-- The per-output configuration errors carried by the project
(`Project["elmJsonsErrors"]`); payloads reduced to the path lists that
`isRelatedToElmJsonsErrors` inspects. -/
inductive ElmJsonError
  | DuplicateInputs (duplicates : List (List InputPath × String))
  | ElmJsonNotFound (elmJsonNotFound : List InputPath) (foundElmJsonPaths : List InputPath)
  | InputsFailedToResolve (inputsFailedToResolve : List UncheckedInputPath)
  | InputsNotFound (inputsNotFound : List UncheckedInputPath)
  | NonUniqueElmJsonPaths (nonUniqueElmJsonPaths : List InputPath)
  deriving DecidableEq

/-- Modelled from the spec: Project.ts `OutputState`, restricted to the fields
the orchestrator reads (`inputs`, `compilationMode`, `allRelatedElmFilePaths`,
`dirty`); `status` and `postprocess` belong to the compile engine. -/
structure OutputState where
  inputs : List InputPath
  compilationMode : CompilationMode
  allRelatedElmFilePaths : List String
  dirty : Bool
  deriving DecidableEq

/-- Modelled from the spec: Project.ts `Project`, with `elmJsons` an ordered
association list from elm.json path to its ordered map of outputs. -/
structure Project where
  watchRoot : String
  elmToolingJsonPath : String
  disabledOutputs : List OutputPath
  elmJsonsErrors : List (OutputPath × ElmJsonError)
  elmJsons : List (String × List (OutputPath × OutputState))
  deriving DecidableEq

/-- Modelled from the spec: Project.ts `getFlatOutputs`, the outputs of every
elm.json flattened in declaration order. -/
def getFlatOutputs (project : Project) : List (OutputPath × OutputState) :=
  project.elmJsons.flatMap fun p => p.2

inductive WatcherEventName
  | added
  | changed
  | removed
  deriving DecidableEq

def eventNameToString : WatcherEventName → String
  | .added => "added"
  | .changed => "changed"
  | .removed => "removed"

structure WatcherEvent where
  date : Nat
  eventName : WatcherEventName
  file : String
  deriving DecidableEq

structure WebSocketConnectedEvent where
  date : Nat
  outputPath : OutputPath
  deriving DecidableEq

/-- A timeline event: `WatcherEvent | WebSocketConnectedEvent`. -/
inductive Event
  | watcher (event : WatcherEvent)
  | webSocketConnected (event : WebSocketConnectedEvent)
  deriving DecidableEq

structure EventWithMessage where
  event : WatcherEvent
  message : String
  deriving DecidableEq

inductive NextAction
  | Compile (events : List Event)
  | NoAction
  | PrintNonInterestingEvents (events : List WatcherEvent)
  | Restart (eventsWithMessages : List EventWithMessage)
  deriving DecidableEq

inductive HotState
  | Compiling (start : Nat) (events : List Event)
  | Dependencies (start : Nat) (events : List Event)
  | Idle
  | Restarting (events : List Event)
  deriving DecidableEq

structure Model where
  nextAction : NextAction
  hotState : HotState
  deriving DecidableEq

inductive CompileAllMode
  | AfterIdle
  | AfterInstallDependencies
  | ContinueCompilation
  deriving DecidableEq

/-- The commands emitted by the watcher-driven part of `update`; the source's
remaining command variants are not produced by the embedded messages. -/
inductive Cmd
  | ClearScreen
  | CompileAllOutputsAsNeeded (mode : CompileAllMode) (includeInterrupted : Bool)
  | LogInfoMessageWithTimeline (message : String) (events : List Event)
  | MarkAsDirty (outputs : List (OutputPath × OutputState))
  | NoCmd
  | Restart (restartReasons : List Event)
  | RunOnIdle
  | SleepBeforeNextAction
  deriving DecidableEq

/-- The messages embedded here: the two the filesystem watcher drives. -/
inductive Msg
  | GotWatcherEvent (date : Nat) (eventName : WatcherEventName) (absolutePathString : String)
  | SleepBeforeNextActionDone (date : Nat)
  deriving DecidableEq

/-- Splitting a character list on a separator character; `splitOnChar c l`
never returns an empty list of groups. -/
def splitOnChar (c : Char) : List Char → List (List Char)
  | [] => [[]]
  | ch :: rest =>
    let r := splitOnChar c rest
    if ch = c then [] :: r
    else
      match r with
      | [] => [[ch]]
      | g :: gs => (ch :: g) :: gs

/-- Node's `path.basename` for forward-slash paths: the last path component. -/
def basename (s : String) : String :=
  match (splitOnChar '/' s.data).reverse with
  | [] => s
  | last :: _ => String.mk last

/-- JavaScript `String.prototype.endsWith`. -/
def strEndsWith (s suffixStr : String) : Bool :=
  suffixStr.data.isSuffixOf s.data

/-- JavaScript `String.prototype.startsWith`. -/
def strStartsWith (s prefixStr : String) : Bool :=
  prefixStr.data.isPrefixOf s.data

/-- JavaScript `String.prototype.slice(n)` for a non-negative start. -/
def strDrop (s : String) (n : Nat) : String :=
  String.mk (s.data.drop n)

/-- Modelled from the spec: Helpers.ts `bold`, ANSI bold rendering. -/
def bold (s : String) : String := "\x1b[1m" ++ s ++ "\x1b[22m"

def restartBecauseJsonFileChangedMessage (changedFile : String)
    (eventName : WatcherEventName) : String :=
  "An " ++ bold changedFile ++ " file " ++ eventNameToString eventName ++ "."

def restartBecauseRelatedToElmJsonsErrorsMessage (eventName : WatcherEventName) : String :=
  "A problematic input Elm file was " ++ eventNameToString eventName ++ "."

def restartBecauseInputWasRemovedMessage : String :=
  "An input Elm file was removed."

def restartingMessage (events : List EventWithMessage) : String :=
  String.intercalate "\n" (dedupFirst (events.map EventWithMessage.message) ++ ["Restarting!"])

def notInterestingElmFileChangedMessage (events : List WatcherEvent)
    (disabledOutputs : List OutputPath) : String :=
  let what1 := if events.length = 1 then "file is" else "files are"
  let what2 := if disabledOutputs.length > 0 then "any of the enabled outputs" else "any output"
  "FYI: The above Elm " ++ what1 ++ " not imported by " ++ what2 ++ ". Nothing to do!"

def compileFinishedMessage (duration : Nat) : String :=
  "Compilation finished in " ++ bold (toString duration) ++ " ms."

def makeWatcherEvent (eventName : WatcherEventName) (absolutePathString : String)
    (date : Nat) : WatcherEvent :=
  { date := date, eventName := eventName, file := absolutePathString }

/-- Embedding of `makeRestartNextAction`: fold the new reason into an existing
`Restart` next action, and mark every output dirty to interrupt all
compilation. -/
def makeRestartNextAction (message : String) (event : WatcherEvent)
    (nextAction : NextAction) (project : Project) : NextAction × List Cmd :=
  ( .Restart
      (match nextAction with
        | .Restart ews => ews ++ [{ event := event, message := message }]
        | _ => [{ event := event, message := message }])
  , [.MarkAsDirty (getFlatOutputs project)] )

/-- Embedding of `isRelatedToElmJsonsErrors`. -/
def isRelatedToElmJsonsErrors (elmFile : String)
    (elmJsonsErrors : List (OutputPath × ElmJsonError)) : Bool :=
  elmJsonsErrors.any fun p =>
    match p.2 with
    | .DuplicateInputs duplicates =>
      duplicates.any fun d =>
        d.2 == elmFile || d.1.any (equalsInputPath elmFile)
    | .ElmJsonNotFound elmJsonNotFound foundElmJsonPaths =>
      elmJsonNotFound.any (equalsInputPath elmFile)
        || foundElmJsonPaths.any (equalsInputPath elmFile)
    | .InputsFailedToResolve inputsFailedToResolve =>
      inputsFailedToResolve.any fun u => u.theUncheckedInputPath == elmFile
    | .InputsNotFound inputsNotFound =>
      inputsNotFound.any fun u => u.theUncheckedInputPath == elmFile
    | .NonUniqueElmJsonPaths nonUniqueElmJsonPaths =>
      nonUniqueElmJsonPaths.any (equalsInputPath elmFile)

/-- The dirty outputs collected by `onElmFileWatcherEvent`: every output whose
`allRelatedElmFilePaths` contains the file. -/
def dirtyOutputsFor (project : Project) (elmFile : String) :
    List (OutputPath × OutputState) :=
  project.elmJsons.flatMap fun p =>
    p.2.filter fun q => q.2.allRelatedElmFilePaths.contains elmFile

/-- Whether a removed file is listed as an input of some output, which makes
`onElmFileWatcherEvent` schedule a restart. -/
def someInputWasRemoved (project : Project) (elmFile : String) : Bool :=
  project.elmJsons.any fun p =>
    p.2.any fun q => q.2.inputs.any (equalsInputPath elmFile)

/-- Embedding of `onElmFileWatcherEvent`. -/
def onElmFileWatcherEvent (project : Project) (event : WatcherEvent)
    (nextAction : NextAction) : NextAction × List Cmd :=
  if isRelatedToElmJsonsErrors event.file project.elmJsonsErrors then
    makeRestartNextAction
      (restartBecauseRelatedToElmJsonsErrorsMessage event.eventName)
      event nextAction project
  else if event.eventName = .removed ∧ someInputWasRemoved project event.file then
    makeRestartNextAction restartBecauseInputWasRemovedMessage event nextAction project
  else if dirtyOutputsFor project event.file ≠ [] then
    match nextAction with
    | .Restart _ => (nextAction, [.MarkAsDirty (dirtyOutputsFor project event.file)])
    | .Compile events =>
      (.Compile (events ++ [.watcher event]),
        [.MarkAsDirty (dirtyOutputsFor project event.file)])
    | .NoAction =>
      (.Compile [.watcher event], [.MarkAsDirty (dirtyOutputsFor project event.file)])
    | .PrintNonInterestingEvents _ =>
      (.Compile [.watcher event], [.MarkAsDirty (dirtyOutputsFor project event.file)])
  else
    match nextAction with
    | .Restart _ => (nextAction, [])
    | .Compile _ => (nextAction, [])
    | .NoAction => (.PrintNonInterestingEvents [event], [])
    | .PrintNonInterestingEvents events =>
      (.PrintNonInterestingEvents (events ++ [event]), [])

/-- Embedding of `onWatcherEvent`: classification of a filesystem event by
extension and basename; `none` means the event is ignored. -/
def onWatcherEvent (now : Nat) (project : Project) (eventName : WatcherEventName)
    (absolutePathString : String) (nextAction : NextAction) :
    Option (NextAction × List Cmd) :=
  if strEndsWith absolutePathString ".elm" then
    some (onElmFileWatcherEvent project
      (makeWatcherEvent eventName absolutePathString now) nextAction)
  else if basename absolutePathString = "elm-tooling.json" then
    match eventName with
    | .added =>
      some (makeRestartNextAction
        (restartBecauseJsonFileChangedMessage "elm-tooling.json" eventName)
        (makeWatcherEvent eventName absolutePathString now) nextAction project)
    | .changed | .removed =>
      if absolutePathString = project.elmToolingJsonPath then
        some (makeRestartNextAction
          (restartBecauseJsonFileChangedMessage "elm-tooling.json" eventName)
          (makeWatcherEvent eventName absolutePathString now) nextAction project)
      else none
  else if basename absolutePathString = "elm.json" then
    match eventName with
    | .added =>
      some (makeRestartNextAction
        (restartBecauseJsonFileChangedMessage "elm.json" eventName)
        (makeWatcherEvent eventName absolutePathString now) nextAction project)
    | .changed | .removed =>
      if project.elmJsons.any fun p => p.1 == absolutePathString then
        some (makeRestartNextAction
          (restartBecauseJsonFileChangedMessage "elm.json" eventName)
          (makeWatcherEvent eventName absolutePathString now) nextAction project)
      else none
  else none

/-- Embedding of `runCompile`. -/
def runCompile (model : Model) (events : List Event) (start : Nat) :
    Model × List Cmd :=
  match model.hotState with
  | .Idle =>
    ({ model with hotState := .Compiling start events },
      [.CompileAllOutputsAsNeeded .AfterIdle true])
  | .Compiling s evs =>
    ({ model with hotState := .Compiling s (evs ++ events) },
      [.CompileAllOutputsAsNeeded .ContinueCompilation true])
  | .Dependencies s evs =>
    ({ model with hotState := .Dependencies s (evs ++ events) }, [])
  | .Restarting _ => (model, [])

/-- Embedding of `runNextAction`. -/
def runNextAction (start : Nat) (project : Project) (model : Model) :
    Model × List Cmd :=
  match model.nextAction with
  | .NoAction => (model, [])
  | .Restart eventsWithMessages =>
    let events : List Event := eventsWithMessages.map fun ew => .watcher ew.event
    match model.hotState with
    | .Idle =>
      ({ model with hotState := .Restarting events },
        [.ClearScreen, .Restart events])
    | .Dependencies _ _ =>
      ({ model with hotState := .Restarting events },
        [.ClearScreen,
          .LogInfoMessageWithTimeline (restartingMessage eventsWithMessages) events])
    | .Compiling _ _ =>
      ({ model with hotState := .Restarting events },
        [.ClearScreen,
          .LogInfoMessageWithTimeline (restartingMessage eventsWithMessages) events])
    | .Restarting _ => (model, [])
  | .Compile events => runCompile model events start
  | .PrintNonInterestingEvents events =>
    match model.hotState with
    | .Idle =>
      (model,
        [.LogInfoMessageWithTimeline
            (notInterestingElmFileChangedMessage events project.disabledOutputs)
            (events.map Event.watcher),
          .RunOnIdle])
    | .Compiling _ _ => (model, [])
    | .Dependencies _ _ => (model, [])
    | .Restarting _ => (model, [])

/-- Embedding of `update`, restricted to the watcher-driven messages. -/
def update (project : Project) (msg : Msg) (model : Model) : Model × List Cmd :=
  match msg with
  | .GotWatcherEvent date eventName absolutePathString =>
    match onWatcherEvent date project eventName absolutePathString model.nextAction with
    | none => (model, [])
    | some (updatedNextAction, cmds) =>
      ({ model with nextAction := updatedNextAction },
        cmds ++ [.SleepBeforeNextAction])
  | .SleepBeforeNextActionDone date =>
    let r := runNextAction date project model
    ({ r.1 with nextAction := .NoAction }, r.2)

/-- The pure decision inside `runCmd`'s `Restart` case: the web socket state
is carried across the restart unless some restart reason is a watcher event
for a file named `elm-tooling.json` (the configuration file), in which case
the server is closed and the result's `webSocketState` is `undefined`. -/
def elmToolingJsonChanged (restartReasons : List Event) : Bool :=
  restartReasons.any fun e =>
    match e with
    | .watcher w => basename w.file == "elm-tooling.json"
    | .webSocketConnected _ => false

/-- The `webSocketState` field of the `HotRunResult{Restart}` the `Restart`
command resolves with: `none` stands for `undefined`. -/
def restartWebSocketState {α : Type} (restartReasons : List Event) (current : α) :
    Option α :=
  if elmToolingJsonChanged restartReasons then none else some current

/-! ### The persisted runtime state file (`writeElmWatchJson`) -/

/-- JavaScript object update `obj[k] = v`: overwrite in place when the key
exists, append otherwise (insertion order is preserved). -/
def setKey {α : Type} (obj : List (String × α)) (k : String) (v : α) :
    List (String × α) :=
  if obj.any fun p => p.1 == k then
    obj.map fun p => if p.1 == k then (p.1, v) else p
  else obj ++ [(k, v)]

def fromEntriesAux {α : Type} (acc : List (String × α)) :
    List (String × α) → List (String × α)
  | [] => acc
  | e :: rest => fromEntriesAux (setKey acc e.1 e.2) rest

/-- JavaScript `Object.fromEntries`: build an object from key-value pairs,
later pairs overwriting earlier ones. -/
def fromEntries {α : Type} (entries : List (String × α)) : List (String × α) :=
  fromEntriesAux [] entries

/-- The entry list `writeElmWatchJson` builds before `Object.fromEntries`: one
entry per flat output whose compilation mode differs from `standard`, keyed by
the original output path string. -/
def elmWatchJsonOutputEntries (project : Project) : List (String × CompilationMode) :=
  (getFlatOutputs project).flatMap fun p =>
    if p.2.compilationMode = CompilationMode.standard then []
    else [(outputPathToOriginalString p.1, p.2.compilationMode)]

/-- The `ElmWatchJsonWritable` value serialised by `writeElmWatchJson`. -/
structure ElmWatchJsonWritable where
  port : Nat
  outputs : List (String × CompilationMode)
  deriving DecidableEq

/-- Embedding of the JSON value construction in `writeElmWatchJson` (Hot.ts
lines 361-394): the filesystem write itself is an effect and out of scope. -/
def writeElmWatchJsonValue (port : Nat) (project : Project) : ElmWatchJsonWritable :=
  { port := port, outputs := fromEntries (elmWatchJsonOutputEntries project) }

theorem fromEntriesAux_eq_append {α : Type} (entries : List (String × α)) :
    ∀ acc : List (String × α),
      ((acc ++ entries).map Prod.fst).Nodup →
      fromEntriesAux acc entries = acc ++ entries := by
  induction entries with
  | nil => intro acc _; simp [fromEntriesAux]
  | cons e rest ih =>
    intro acc hnd
    have hnotin : e.1 ∉ acc.map Prod.fst := by
      intro hmem
      have h2 : ((acc ++ e :: rest).map Prod.fst).Nodup := hnd
      rw [List.map_append] at h2
      have hdisj := (List.nodup_append.mp h2).2.2
      exact hdisj hmem (by simp)
    have hany : (acc.any fun p => p.1 == e.1) = false := by
      rw [List.any_eq_false]
      intro p hp
      have hne2 : p.1 ≠ e.1 := fun hpe => hnotin (hpe ▸ List.mem_map_of_mem Prod.fst hp)
      simpa using hne2
    have hset : setKey acc e.1 e.2 = acc ++ [e] := by
      rw [setKey, if_neg (by simp [hany])]
    rw [fromEntriesAux, hset, ih (acc ++ [e]) (by simpa using hnd)]
    simp

theorem fromEntries_eq_self {α : Type} (entries : List (String × α))
    (hnd : (entries.map Prod.fst).Nodup) : fromEntries entries = entries := by
  simpa using fromEntriesAux_eq_append entries [] (by simpa using hnd)

theorem elmWatchJsonOutputEntries_keys_sublist (project : Project) :
    List.Sublist ((elmWatchJsonOutputEntries project).map Prod.fst)
      ((getFlatOutputs project).map fun p => outputPathToOriginalString p.1) := by
  unfold elmWatchJsonOutputEntries
  generalize getFlatOutputs project = flat
  induction flat with
  | nil => simp
  | cons p rest ih =>
    by_cases hstd : p.2.compilationMode = CompilationMode.standard
    · simp only [List.flatMap_cons, hstd, if_pos, List.map_cons, List.nil_append]
      exact ih.cons _
    · simp only [List.flatMap_cons, hstd, if_neg, List.map_cons, List.map_append,
        List.singleton_append, List.map_map]
      exact ih.cons₂ _

/-- C6: the value written to the persisted runtime state file is
`{port, outputs}` where `port` is the server's current port and, provided the
original output path strings are pairwise distinct (as the configuration
loader guarantees), `outputs` holds exactly the targets whose compilation mode
differs from `standard`, keyed by their original output path string; an entry
whose mode is `standard` never occurs. -/
theorem c6_persisted_outputs (port : Nat) (project : Project)
    (hnd : (((getFlatOutputs project).map fun p => outputPathToOriginalString p.1)).Nodup) :
    (writeElmWatchJsonValue port project).port = port
    ∧ (∀ s m, (s, m) ∈ (writeElmWatchJsonValue port project).outputs →
        m ≠ CompilationMode.standard)
    ∧ (∀ s m, (s, m) ∈ (writeElmWatchJsonValue port project).outputs ↔
        ∃ q ∈ getFlatOutputs project,
          q.2.compilationMode = m ∧ m ≠ CompilationMode.standard
            ∧ outputPathToOriginalString q.1 = s) := by
  have hkeys : ((elmWatchJsonOutputEntries project).map Prod.fst).Nodup :=
    hnd.sublist (elmWatchJsonOutputEntries_keys_sublist project)
  have houts : (writeElmWatchJsonValue port project).outputs =
      elmWatchJsonOutputEntries project := by
    simp only [writeElmWatchJsonValue]
    exact fromEntries_eq_self _ hkeys
  have hmem : ∀ s m, (s, m) ∈ elmWatchJsonOutputEntries project ↔
      ∃ q ∈ getFlatOutputs project,
        q.2.compilationMode = m ∧ m ≠ CompilationMode.standard
          ∧ outputPathToOriginalString q.1 = s := by
    intro s m
    unfold elmWatchJsonOutputEntries
    rw [List.mem_flatMap]
    constructor
    · rintro ⟨q, hq, hmem⟩
      by_cases hstd : q.2.compilationMode = CompilationMode.standard
      · simp [hstd] at hmem
      · rw [if_neg hstd, List.mem_singleton, Prod.mk.injEq] at hmem
        obtain ⟨hs, hm⟩ := hmem
        subst hs
        subst hm
        exact ⟨q, hq, rfl, hstd, rfl⟩
    · rintro ⟨q, hq, hmode, hne, hs⟩
      have hstd : ¬ q.2.compilationMode = CompilationMode.standard := by
        rw [hmode]
        exact hne
      refine ⟨q, hq, ?_⟩
      rw [if_neg hstd, List.mem_singleton, Prod.mk.injEq]
      exact ⟨hs.symm, hmode.symm⟩
  refine ⟨rfl, ?_, ?_⟩
  · intro s m hm
    rw [houts] at hm
    obtain ⟨q, hq, hmode, hne, hs⟩ := (hmem s m).mp hm
    exact hne
  · intro s m
    rw [houts]
    exact hmem s m

/-! ### A concrete project for witnesses and concrete evaluations -/

def exampleDebugOutputState : OutputState :=
  { inputs := [⟨"/project/src/Main.elm"⟩]
    compilationMode := .debug
    allRelatedElmFilePaths := ["/project/src/Main.elm"]
    dirty := false }

def exampleStandardOutputState : OutputState :=
  { inputs := [⟨"/project/src/Admin.elm"⟩]
    compilationMode := .standard
    allRelatedElmFilePaths := ["/project/src/Admin.elm"]
    dirty := false }

def exampleProject : Project :=
  { watchRoot := "/project"
    elmToolingJsonPath := "/project/elm-tooling.json"
    disabledOutputs := []
    elmJsonsErrors := []
    elmJsons :=
      [("/project/elm.json",
        [(.outputPath "/project/build/main.js" "build/main.js", exampleDebugOutputState),
          (.outputPath "/project/build/admin.js" "build/admin.js",
            exampleStandardOutputState)])] }

def exampleModelCompiling : Model :=
  { nextAction := .NoAction, hotState := .Compiling 0 [] }

theorem c6_persisted_outputs_witness :
    (((getFlatOutputs exampleProject).map fun p => outputPathToOriginalString p.1)).Nodup
    ∧ (writeElmWatchJsonValue 1234 exampleProject).port = 1234 :=
  ⟨by decide, (c6_persisted_outputs 1234 exampleProject (by decide)).1⟩

/-- C8: a watcher event for a path that does not end in `.elm` and whose
basename is neither `elm-tooling.json` nor `elm.json` leaves the model
untouched and emits no command: `nextAction` is unchanged, no target is marked
dirty and no debounce timer is scheduled. -/
theorem c8_unrelated_file_event_is_ignored (project : Project) (model : Model)
    (date : Nat) (eventName : WatcherEventName) (path : String)
    (h1 : strEndsWith path ".elm" = false)
    (h2 : basename path ≠ "elm-tooling.json")
    (h3 : basename path ≠ "elm.json") :
    update project (.GotWatcherEvent date eventName path) model = (model, []) := by
  simp [update, onWatcherEvent, h1, h2, h3]

theorem c8_unrelated_file_event_is_ignored_witness :
    strEndsWith "/project/notes.txt" ".elm" = false
    ∧ update exampleProject (.GotWatcherEvent 5 .changed "/project/notes.txt")
        exampleModelCompiling = (exampleModelCompiling, []) :=
  ⟨by decide,
    c8_unrelated_file_event_is_ignored exampleProject exampleModelCompiling 5 .changed
      "/project/notes.txt" (by decide) (by decide) (by decide)⟩

/-- In this snapshot the configuration file is `elm-tooling.json`, not
`elm-watch.json`: a `changed` watcher event for a file named `elm-watch.json`
(the persisted runtime state file) while `hotState` is `Compiling` is ignored
outright — the model is unchanged and no command is emitted, so no target is
marked dirty and no restart happens, although the project does have
targets. -/
theorem c2_counterexample :
    update exampleProject (.GotWatcherEvent 1 .changed "/project/elm-watch.json")
        exampleModelCompiling = (exampleModelCompiling, [])
    ∧ getFlatOutputs exampleProject ≠ [] := by
  constructor
  · decide
  · decide

def configChangedEvent (project : Project) (d : Nat) : WatcherEvent :=
  makeWatcherEvent .changed project.elmToolingJsonPath d

def configChangedEventWithMessage (project : Project) (d : Nat) : EventWithMessage :=
  { event := configChangedEvent project d
    message := restartBecauseJsonFileChangedMessage "elm-tooling.json" .changed }

/-- C2 (amended): in hot mode, a `changed` watcher event for the configuration
file `elm-tooling.json` (not `elm-watch.json`, which is the persisted runtime
state file and is ignored by the watcher) arriving while `hotState` is
`Compiling` marks every target dirty — interrupting the in-flight compile,
whose result is then discarded — and schedules the debounce timer; the
debounce tick moves the model into `Restarting` (the restart itself waits for
the current compile to finish); and the `Restart` command built from these
restart reasons resolves with `webSocketState` undefined, so the caller
re-enters with a fresh WebSocket server. -/
theorem c2_config_change_while_compiling (project : Project) (model : Model)
    (d1 d2 start : Nat) (evs : List Event)
    (h1 : model.hotState = .Compiling start evs)
    (h2 : model.nextAction = .NoAction)
    (h3 : strEndsWith project.elmToolingJsonPath ".elm" = false)
    (h4 : basename project.elmToolingJsonPath = "elm-tooling.json") :
    update project (.GotWatcherEvent d1 .changed project.elmToolingJsonPath) model
      = ({ model with nextAction := .Restart [configChangedEventWithMessage project d1] },
        [.MarkAsDirty (getFlatOutputs project), .SleepBeforeNextAction])
    ∧ update project (.SleepBeforeNextActionDone d2)
        { model with nextAction := .Restart [configChangedEventWithMessage project d1] }
      = ({ nextAction := .NoAction
           hotState := .Restarting [.watcher (configChangedEvent project d1)] },
        [.ClearScreen,
          .LogInfoMessageWithTimeline
            (restartingMessage [configChangedEventWithMessage project d1])
            [.watcher (configChangedEvent project d1)]])
    ∧ restartWebSocketState [Event.watcher (configChangedEvent project d1)] () = none := by
  refine ⟨?_, ?_, ?_⟩
  · simp [update, onWatcherEvent, h2, h3, h4, makeRestartNextAction,
      configChangedEventWithMessage, configChangedEvent, makeWatcherEvent]
  · simp [update, runNextAction, h1, configChangedEventWithMessage, configChangedEvent,
      makeWatcherEvent]
  · simp [restartWebSocketState, elmToolingJsonChanged, configChangedEvent,
      makeWatcherEvent, h4]

theorem c2_config_change_while_compiling_witness :
    exampleModelCompiling.hotState = HotState.Compiling 0 []
    ∧ update exampleProject
        (.GotWatcherEvent 1 .changed exampleProject.elmToolingJsonPath)
        exampleModelCompiling
      = ({ exampleModelCompiling with
            nextAction := .Restart [configChangedEventWithMessage exampleProject 1] },
        [.MarkAsDirty (getFlatOutputs exampleProject), .SleepBeforeNextAction]) :=
  ⟨rfl,
    (c2_config_change_while_compiling exampleProject exampleModelCompiling 1 2 0 []
      rfl rfl (by decide) (by decide)).1⟩

/-! ### Parsing the WebSocket connect URL (`parseWebSocketConnectRequestUrl`)

The source builds `new URLSearchParams(urlString.slice(2))`, turns it into an
object with `Object.fromEntries` — whose values are always strings — and runs
the tiny-decoders decoder `WebSocketConnectedParams` over it, whose
`compiledTimestamp` field uses `Decode.number`, which accepts only values
whose JavaScript type is `number`. JSON-level values are embedded as `Json`
(string or number) so that this distinction is faithful. -/

inductive Json
  | str (s : String)
  | num (n : Int)
  deriving DecidableEq

structure DecoderError where
  message : String
  deriving DecidableEq

def hexVal (c : Char) : Option Nat :=
  if '0' ≤ c ∧ c ≤ '9' then some (c.toNat - '0'.toNat)
  else if 'a' ≤ c ∧ c ≤ 'f' then some (c.toNat - 'a'.toNat + 10)
  else if 'A' ≤ c ∧ c ≤ 'F' then some (c.toNat - 'A'.toNat + 10)
  else none

/-- Percent-decoding as `URLSearchParams` performs it: a percent sign followed
by two hex digits decodes to that byte, anything else stays literal. -/
def percentDecode : List Char → List Char
  | [] => []
  | '%' :: c1 :: c2 :: rest =>
    match hexVal c1, hexVal c2 with
    | some h1, some h2 => Char.ofNat (16 * h1 + h2) :: percentDecode rest
    | _, _ => '%' :: percentDecode (c1 :: c2 :: rest)
  | c :: rest => c :: percentDecode rest

def plusToSpace (c : Char) : Char := if c = '+' then ' ' else c

def formDecode (s : List Char) : String :=
  String.mk (percentDecode (s.map plusToSpace))

def splitPairAux : List Char → List Char → String × String
  | accKey, [] => (formDecode accKey.reverse, "")
  | accKey, '=' :: rest => (formDecode accKey.reverse, formDecode rest)
  | accKey, c :: rest => splitPairAux (c :: accKey) rest

/-- One `key=value` pair of a query string; a part without an equals sign gets
the empty value. -/
def splitPair (part : List Char) : String × String :=
  splitPairAux [] part

/-- The entry list of `new URLSearchParams(query)`: split on ampersands, drop
empty parts, split each part at its first equals sign, form-decode both
sides. -/
def urlSearchParams (query : String) : List (String × String) :=
  ((splitOnChar '&' query.data).filter fun g => !g.isEmpty).map splitPair

structure WebSocketConnectedParams where
  elmWatchVersion : String
  output : String
  compiledTimestamp : Int
  deriving DecidableEq

def lookupField (obj : List (String × Json)) (key : String) : Option Json :=
  (obj.find? fun p => p.1 == key).map Prod.snd

/-- tiny-decoders `Decode.string` applied to a field of the object. -/
def decodeStringField (obj : List (String × Json)) (key : String) :
    Except DecoderError String :=
  match lookupField obj key with
  | some (.str s) => .ok s
  | _ => .error ⟨"expected a string at key " ++ key⟩

/-- tiny-decoders `Decode.number` applied to a field of the object: accepts
only a JSON number, never a numeric string. -/
def decodeNumberField (obj : List (String × Json)) (key : String) :
    Except DecoderError Int :=
  match lookupField obj key with
  | some (.num n) => .ok n
  | _ => .error ⟨"expected a number at key " ++ key⟩

/-- The `WebSocketConnectedParams` decoder: `fieldsAuto` with
`exact: "throw"` — all three fields must decode and no unknown field may be
present. -/
def decodeWebSocketConnectedParams (obj : List (String × Json)) :
    Except DecoderError WebSocketConnectedParams :=
  match decodeStringField obj "elmWatchVersion" with
  | .error e => .error e
  | .ok elmWatchVersion =>
    match decodeStringField obj "output" with
    | .error e => .error e
    | .ok output =>
      match decodeNumberField obj "compiledTimestamp" with
      | .error e => .error e
      | .ok compiledTimestamp =>
        if obj.all fun p =>
            p.1 == "elmWatchVersion" || p.1 == "output"
              || p.1 == "compiledTimestamp" then
          .ok
            { elmWatchVersion := elmWatchVersion
              output := output
              compiledTimestamp := compiledTimestamp }
        else .error ⟨"unknown fields"⟩

inductive ParseWebSocketConnectRequestUrlResult
  | Success (outputPath : OutputPath) (outputState : OutputState) (compiledTimestamp : Int)
  | BadUrl (expectedStart : String) (actualUrlString : String)
  | ParamsDecodeError (error : DecoderError) (actualUrlString : String)
  | WrongVersion (expectedVersion : String) (actualVersion : String)
  | OutputNotFound (output : String) (enabledOutputs : List OutputPath)
      (disabledOutputs : List OutputPath)
  | OutputDisabled (output : String) (enabledOutputs : List OutputPath)
      (disabledOutputs : List OutputPath)
  deriving DecidableEq

def ParseWebSocketConnectRequestUrlResult.isBadUrl :
    ParseWebSocketConnectRequestUrlResult → Bool
  | .BadUrl _ _ => true
  | _ => false

def ParseWebSocketConnectRequestUrlResult.isParamsDecodeError :
    ParseWebSocketConnectRequestUrlResult → Bool
  | .ParamsDecodeError _ _ => true
  | _ => false

def ParseWebSocketConnectRequestUrlResult.isWrongVersion :
    ParseWebSocketConnectRequestUrlResult → Bool
  | .WrongVersion _ _ => true
  | _ => false

/-- Embedding of `parseWebSocketConnectRequestUrl` (Hot.ts lines 1508-1579).
The engine's build-time version token is the placeholder `%VERSION%` the build
script substitutes. -/
def parseWebSocketConnectRequestUrl (project : Project) (urlString : String) :
    ParseWebSocketConnectRequestUrlResult :=
  if !strStartsWith urlString "/?" then .BadUrl "/?" urlString
  else
    let params := urlSearchParams (strDrop urlString 2)
    match decodeWebSocketConnectedParams
        (fromEntries (params.map fun p => (p.1, Json.str p.2))) with
    | .error e => .ParamsDecodeError e urlString
    | .ok wcp =>
      if wcp.elmWatchVersion ≠ "%VERSION%" then
        .WrongVersion "%VERSION%" wcp.elmWatchVersion
      else
        match (getFlatOutputs project).find? fun q =>
            outputPathToOriginalString q.1 == wcp.output with
        | some m => .Success m.1 m.2 wcp.compiledTimestamp
        | none =>
          let enabledOutputs := (getFlatOutputs project).map Prod.fst
          match project.disabledOutputs.find? fun op =>
              outputPathToOriginalString op == wcp.output with
          | none => .OutputNotFound wcp.output enabledOutputs project.disabledOutputs
          | some _ => .OutputDisabled wcp.output enabledOutputs project.disabledOutputs

theorem fromEntries_values_str (params : List (String × String)) :
    ∀ kv ∈ fromEntries (params.map fun p => (p.1, Json.str p.2)),
      ∃ s, kv.2 = Json.str s := by
  have haux : ∀ (entries : List (String × String)) (acc : List (String × Json)),
      (∀ kv ∈ acc, ∃ s, kv.2 = Json.str s) →
      ∀ kv ∈ fromEntriesAux acc (entries.map fun p => (p.1, Json.str p.2)),
        ∃ s, kv.2 = Json.str s := by
    intro entries
    induction entries with
    | nil => intro acc hacc kv hkv; exact hacc kv hkv
    | cons e rest ih =>
      intro acc hacc kv hkv
      simp only [List.map_cons, fromEntriesAux] at hkv
      refine ih (setKey acc e.1 (Json.str e.2)) ?_ kv hkv
      intro kv2 hkv2
      unfold setKey at hkv2
      by_cases hany : (acc.any fun p => p.1 == e.1) = true
      · rw [if_pos hany] at hkv2
        rcases List.mem_map.mp hkv2 with ⟨p, hp, hpe⟩
        by_cases hpk : p.1 == e.1
        · rw [if_pos hpk] at hpe
          exact ⟨e.2, by rw [← hpe]⟩
        · rw [if_neg hpk] at hpe
          exact hacc p hp |>.imp fun s hs => by rw [← hpe]; exact hs
      · rw [if_neg hany] at hkv2
        rcases List.mem_append.mp hkv2 with h | h
        · exact hacc kv2 h
        · rcases List.mem_singleton.mp h with rfl
          exact ⟨e.2, rfl⟩
  intro kv hkv
  exact haux params [] (by simp) kv hkv

theorem decodeWebSocketConnectedParams_of_params (params : List (String × String)) :
    ∃ e, decodeWebSocketConnectedParams
        (fromEntries (params.map fun p => (p.1, Json.str p.2))) = .error e := by
  have hval := fromEntries_values_str params
  set obj := fromEntries (params.map fun p => (p.1, Json.str p.2)) with hobj
  have hnum : ∀ key, decodeNumberField obj key =
      .error ⟨"expected a number at key " ++ key⟩ := by
    intro key
    unfold decodeNumberField lookupField
    cases hfind : obj.find? fun p => p.1 == key with
    | none => rfl
    | some p =>
      have hp : p ∈ obj := List.mem_of_find?_eq_some hfind
      rcases hval p hp with ⟨s, hs⟩
      simp [hs]
  unfold decodeWebSocketConnectedParams
  cases h1 : decodeStringField obj "elmWatchVersion" with
  | error e => exact ⟨e, rfl⟩
  | ok v1 =>
    cases h2 : decodeStringField obj "output" with
    | error e => exact ⟨e, rfl⟩
    | ok v2 =>
      refine ⟨⟨"expected a number at key " ++ "compiledTimestamp"⟩, ?_⟩
      rw [hnum "compiledTimestamp"]

/-- C1 (code behaviour at the claimed validation chain): the
`WebSocketConnectedParams` decoder runs over `Object.fromEntries` of a
`URLSearchParams`, whose values are always strings, while its
`compiledTimestamp` field demands a JSON number — so for every project and
connect URL the parse stops at `BadUrl` or `ParamsDecodeError`; the
`WrongVersion`, `OutputNotFound`/`OutputDisabled` and `Success` stages are
unreachable. In particular the URL the claim sends to the `WrongVersion` stage
(`elmWatchVersion=bogus`, a configured output, an integer timestamp) yields
`ParamsDecodeError` instead. -/
theorem c1_params_decode_always_fails :
    (∀ (project : Project) (urlString : String),
      ((parseWebSocketConnectRequestUrl project urlString).isBadUrl
        || (parseWebSocketConnectRequestUrl project urlString).isParamsDecodeError) = true)
    ∧ (parseWebSocketConnectRequestUrl exampleProject
        "/?elmWatchVersion=bogus&output=build/main.js&compiledTimestamp=0").isParamsDecodeError
      = true
    ∧ (parseWebSocketConnectRequestUrl exampleProject
        "/?elmWatchVersion=bogus&output=build/main.js&compiledTimestamp=0").isWrongVersion
      = false := by
  refine ⟨?_, by decide, by decide⟩
  intro project urlString
  unfold parseWebSocketConnectRequestUrl
  by_cases hstart : strStartsWith urlString "/?"
  · rcases decodeWebSocketConnectedParams_of_params
        (urlSearchParams (strDrop urlString 2)) with ⟨e, he⟩
    simp [hstart, he, ParseWebSocketConnectRequestUrlResult.isParamsDecodeError]
  · have hstart2 : strStartsWith urlString "/?" = false := by simpa using hstart
    simp [hstart2, ParseWebSocketConnectRequestUrlResult.isBadUrl]

end Hot

end ElmWatch
